import Mathlib

/-!
Shallow embedding of the middleware composition/dispatch engine of
`request-middleware` (files `src/engine/compose.ts` and the engine class
`MiddlewareEngine` in `src/unnamed/part_001`, i.e. `middlewareEngine.ts`).

A handler (middleware) in the source is an async function
`(ctx, next) => Promise<void>`.  We embed handler bodies as programs of a
small first-order language `HP`: a handler may emit observable events
(standing for any side effect on the context, e.g. pushing onto a log),
throw, await its continuation `next()` (either letting a rejection
propagate, or catching it), and call `engine.use` to register a further
middleware while a dispatch is in flight.  The observable outcome of one
composed execution is the ordered event trace together with the promise
outcome (`Except`), plus the final registry contents.
-/

namespace RequestMiddleware

/-- Errors surfaced by one composed execution:
`nextCalledMultipleTimes` models `new Error('next() called multiple times')`
thrown at `compose.ts` line 62; `userError c` models an arbitrary error value
thrown by a handler body or by the `finalHandler` (the code never wraps or
replaces it, so identity is preserved as the code `c`). -/
inductive MwError where
  | nextCalledMultipleTimes : MwError
  | userError (code : Nat) : MwError
deriving DecidableEq, Repr

/-- Handler-body programs.  `emit e k` performs an observable side effect
labelled `e` and continues as `k`; `throwE e` rejects with `userError e`;
`callNext k` awaits `next()` and, if it resolves, continues as `k`
(a rejection of `next()` propagates out of the handler, the default in the
source's async/await semantics); `callNextCatch k1 k2` awaits `next()`
inside a try/catch, continuing as `k1` on resolution and `k2` on rejection;
`useReg g k` calls `engine.use(g)` (registering a middleware mid-dispatch)
and continues as `k`; `ret` resolves the handler's promise. -/
inductive HP where
  | ret : HP
  | emit (e : Nat) (k : HP) : HP
  | throwE (e : Nat) : HP
  | callNext (k : HP) : HP
  | callNextCatch (k1 : HP) (k2 : HP) : HP
  | useReg (g : HP) (k : HP) : HP
deriving DecidableEq, Repr

/-- The optional `finalHandler` argument of `composeMiddlewares`: a
`() => Promise<void>` that emits its events and then either resolves
(`err = none`) or rejects with `userError e` (`err = some e`). -/
structure FinalHandler where
  events : List Nat
  err : Option Nat
deriving DecidableEq, Repr

/-- The mutable state visible to one composed execution:
`middlewares` is the engine's registry array `this.middlewares`
(mutated only by `use`, i.e. by `useReg` actions of handlers);
`currentIndex` is the guard variable of `composed` (`compose.ts` line 57),
initialised to `-1` for each invocation; `trace` is the ordered log of
events emitted so far. -/
structure EngSt where
  middlewares : List HP
  currentIndex : Int
  trace : List Nat
deriving DecidableEq, Repr

/-- Outcome of running the `finalHandler` (or of reaching the end of the
chain with none present): `compose.ts` lines 69-75. -/
def finApply (fin : Option FinalHandler) (st : EngSt) : EngSt × Except MwError Unit :=
  match fin with
  | none => (st, .ok ())
  | some f =>
      ({ st with trace := st.trace ++ f.events },
       match f.err with
       | none => .ok ()
       | some e => .error (.userError e))

/-- Interpreter for one handler body.  `next` is the continuation closure
`() => dispatch(index + 1)` built at `compose.ts` line 82; the handler is
awaited at line 85. -/
def runHandler (next : EngSt → EngSt × Except MwError Unit) :
    HP → EngSt → EngSt × Except MwError Unit
  | .ret, st => (st, .ok ())
  | .emit e k, st => runHandler next k { st with trace := st.trace ++ [e] }
  | .throwE e, st => (st, .error (.userError e))
  | .callNext k, st =>
      match next st with
      | (st', .ok _) => runHandler next k st'
      | (st', .error e) => (st', .error e)
  | .callNextCatch k1 k2, st =>
      match next st with
      | (st', .ok _) => runHandler next k1 st'
      | (st', .error _) => runHandler next k2 st'
  | .useReg g k, st =>
      runHandler next k { st with middlewares := st.middlewares ++ [g] }

/-- The recursive `dispatch(index)` of `compose.ts` lines 59-86, for the
case in which the composed closure holds a chain array that is *fixed* for
the whole execution (this is the array `composeMiddlewares` received; the
engine's `dispatch` passes a freshly built merged array when extra
middlewares are supplied).  `rest` is the suffix `chain[i..]` of that fixed
array and `i` the absolute index, so `middlewares[index]` is the head of
`rest` and `index === middlewares.length` is `rest = []`.  An element
`none` of the chain models a hole (`middlewares[index]` being `undefined`
at a valid index, line 77's `if (!middleware) return`).  The guard
`index <= currentIndex` (line 61) throws `next() called multiple times`;
otherwise `currentIndex` is set to `index` (line 64) before anything else
runs. -/
def dispatchStep (fin : Option FinalHandler) :
    List (Option HP) → Nat → EngSt → EngSt × Except MwError Unit
  | rest, i, st =>
    if (i : Int) ≤ st.currentIndex then
      (st, .error .nextCalledMultipleTimes)
    else
      match rest with
      | [] => finApply fin { st with currentIndex := (i : Int) }
      | none :: _ => ({ st with currentIndex := (i : Int) }, .ok ())
      | some p :: rest' =>
          runHandler (fun st'' => dispatchStep fin rest' (i + 1) st'') p
            { st with currentIndex := (i : Int) }

/-- The composed function returned by `composeMiddlewares` (line 55),
applied to one context: a fresh `currentIndex = -1` and an empty trace,
then `await dispatch(0)` (line 89).  `regs` is the engine registry contents
at invocation time (read and written only through `useReg`). -/
def runComposed (regs : List HP) (chain : List (Option HP))
    (fin : Option FinalHandler) : EngSt × Except MwError Unit :=
  dispatchStep fin chain 0 ⟨regs, -1, []⟩

mutual

/-- Models `dispatch(index)` of `compose.ts` for the case in which the
composed closure's `middlewares` array *is* the engine's live registry array: this
is what `MiddlewareEngine.dispatch` produces when called without
`extraMiddlewares` (`middlewareEngine.ts` line 87 passes
`this.middlewares` itself, not a copy).  Each step re-reads
`middlewares[index]` and `middlewares.length` from the current registry, so
registrations performed by handlers during the dispatch are visible to it.
Fuel-indexed (`none` = out of fuel) because a handler that keeps
registering can make the chain unbounded. -/
def liveDispatch (fin : Option FinalHandler) :
    Nat → Nat → EngSt → Option (EngSt × Except MwError Unit)
  | 0, _, _ => none
  | fuel + 1, i, st =>
    if (i : Int) ≤ st.currentIndex then
      some (st, .error .nextCalledMultipleTimes)
    else
      let st1 : EngSt := { st with currentIndex := (i : Int) }
      if i = st1.middlewares.length then
        some (finApply fin st1)
      else
        match st1.middlewares[i]? with
        | none => some (st1, .ok ())
        | some p => liveRunHandler fin fuel p i st1

/-- Interpreter for one handler body running over the live registry array;
`fuel` bounds the total number of interpreter steps. -/
def liveRunHandler (fin : Option FinalHandler) :
    Nat → HP → Nat → EngSt → Option (EngSt × Except MwError Unit)
  | 0, _, _, _ => none
  | _ + 1, .ret, _, st => some (st, .ok ())
  | fuel + 1, .emit e k, i, st =>
      liveRunHandler fin fuel k i { st with trace := st.trace ++ [e] }
  | _ + 1, .throwE e, _, st => (some (st, .error (.userError e)))
  | fuel + 1, .callNext k, i, st =>
      match liveDispatch fin fuel (i + 1) st with
      | none => none
      | some (st', .ok _) => liveRunHandler fin fuel k i st'
      | some (st', .error e) => some (st', .error e)
  | fuel + 1, .callNextCatch k1 k2, i, st =>
      match liveDispatch fin fuel (i + 1) st with
      | none => none
      | some (st', .ok _) => liveRunHandler fin fuel k1 i st'
      | some (st', .error _) => liveRunHandler fin fuel k2 i st'
  | fuel + 1, .useReg g k, i, st =>
      liveRunHandler fin fuel k i { st with middlewares := st.middlewares ++ [g] }

end

/-- The `MiddlewareEngine` class state (`middlewareEngine.ts` line 41):
just the private registry array `this.middlewares`. -/
structure MiddlewareEngine where
  middlewares : List HP
deriving DecidableEq, Repr

/-- An untyped JavaScript value arriving at a public entry point where a
middleware function is expected: either an actual function (with body `h`)
or anything that fails `typeof m === 'function'`. -/
inductive JsArg where
  | fn (h : HP)
  | notAFunction
deriving DecidableEq, Repr

/-- An untyped value where the middleware array is expected: either an
actual array of values or anything failing `Array.isArray`. -/
inductive MwListArg where
  | arr (items : List JsArg)
  | notAnArray
deriving DecidableEq, Repr

/-- The `TypeError`s thrown synchronously by `composeMiddlewares`
(`compose.ts` lines 46 and 51) and by `use`
(`middlewareEngine.ts` line 56). -/
inductive ArgError where
  | middlewaresMustBeArray
  | middlewareMustBeFunction
deriving DecidableEq, Repr

/-- Checks `typeof middleware === 'function'`. -/
def isFn : JsArg → Bool
  | .fn _ => true
  | .notAFunction => false

/-- The middleware function bodies among a list of untyped values. -/
def argFns (items : List JsArg) : List HP :=
  items.filterMap fun it =>
    match it with
    | .fn h => some h
    | .notAFunction => none

/-- Validation of `composeMiddlewares` (`compose.ts` lines 44-53): throws
`TypeError('Middlewares must be an array')` when the argument is not an
array and `TypeError('Middleware must be a function')` when some element
is not a function; otherwise it returns the `composed` closure, which
captures the chain — represented here by the list of handler bodies it
will execute (run via `runComposed`). -/
def composeMiddlewares (input : MwListArg) : Except ArgError (List HP) :=
  match input with
  | .notAnArray => .error .middlewaresMustBeArray
  | .arr items =>
      if items.all isFn then
        .ok (argFns items)
      else
        .error .middlewareMustBeFunction

/-- Models `use` (`middlewareEngine.ts` lines 54-59): the `typeof` check throws
before anything is pushed, so on failure the engine state is returned
untouched; on success the handler is appended to the registry.  The second
component is the thrown `TypeError`, if any. -/
def MiddlewareEngine.use (eng : MiddlewareEngine) (m : JsArg) :
    MiddlewareEngine × Option ArgError :=
  match m with
  | .notAFunction => (eng, some .middlewareMustBeFunction)
  | .fn h => (⟨eng.middlewares ++ [h]⟩, none)

/-- The merge at `middlewareEngine.ts` lines 85-87: with extras a fresh
array `[...this.middlewares, ...extraMiddlewares]`, without extras the
registry array itself. -/
def MiddlewareEngine.effectiveChain (eng : MiddlewareEngine)
    (extra : Option (List HP)) : List HP :=
  match extra with
  | some ex => eng.middlewares ++ ex
  | none => eng.middlewares

/-- Models `dispatch(ctx, finalHandler, extraMiddlewares)` with extras supplied
(`middlewareEngine.ts` lines 79-92): the composed closure executes the
freshly merged array, while `useReg` actions still write to the registry. -/
def MiddlewareEngine.dispatchWithExtras (eng : MiddlewareEngine)
    (fin : Option FinalHandler) (ex : List HP) : EngSt × Except MwError Unit :=
  runComposed eng.middlewares ((eng.middlewares ++ ex).map some) fin

/-- Models `dispatch(ctx, finalHandler)` without extras: the composed closure
aliases the live registry array (line 87), so execution goes through
`liveDispatch`. -/
def MiddlewareEngine.dispatchNoExtras (eng : MiddlewareEngine)
    (fin : Option FinalHandler) (fuel : Nat) :
    Option (EngSt × Except MwError Unit) :=
  liveDispatch fin fuel 0 ⟨eng.middlewares, -1, []⟩

/-- A heap of JavaScript arrays, used to state the defensive-copy property
of `getMiddlewares`: array references are indices into the store, and
mutating one array must not change another. -/
structure ArrayStore where
  arrays : List (List HP)
deriving DecidableEq, Repr

/-- Dereference an array. -/
def ArrayStore.read (s : ArrayStore) (r : Nat) : List HP :=
  s.arrays.getD r []

/-- Overwrite the array behind reference `r` with arbitrary new contents
(covers pushes, removals, any in-place mutation a caller may perform). -/
def ArrayStore.writeArr (s : ArrayStore) (r : Nat) (l : List HP) : ArrayStore :=
  ⟨s.arrays.set r l⟩

/-- Models `getMiddlewares` (`middlewareEngine.ts` lines 66-68):
`return [...this.middlewares]` allocates a fresh array holding a copy of
the registry contents and returns a reference to that fresh array. -/
def getMiddlewaresRef (s : ArrayStore) (regsRef : Nat) : Nat × ArrayStore :=
  (s.arrays.length, ⟨s.arrays ++ [s.read regsRef]⟩)

instance : DecidableEq (Except MwError Unit) := fun a b =>
  match a, b with
  | .ok x, .ok y => decidable_of_iff (x = y) (by constructor <;> (intro h; cases h; rfl))
  | .error x, .error y => decidable_of_iff (x = y) (by constructor <;> (intro h; cases h; rfl))
  | .ok _, .error _ => isFalse (by intro h; cases h)
  | .error _, .ok _ => isFalse (by intro h; cases h)

/-- Emit the listed events in order, then continue as `k`. -/
def emitSeq : List Nat → HP → HP
  | [], k => k
  | e :: es, k => .emit e (emitSeq es k)

/-- The standard onion-model middleware of the spec's scenarios: log the
`pre` events ("name-before"), `await next()`, and on its resolution log the
`post` events ("name-after"). -/
def goodHandler (pre post : List Nat) : HP :=
  emitSeq pre (.callNext (emitSeq post .ret))

/-- A list of standard middlewares, one per `(pre, post)` specification. -/
def goodHandlers (specs : List (List Nat × List Nat)) : List HP :=
  specs.map fun s => goodHandler s.1 s.2

/-- The same list as chain elements (no holes). -/
def goodChain (specs : List (List Nat × List Nat)) : List (Option HP) :=
  (goodHandlers specs).map some

/-- All `pre` events in chain order. -/
def presOf (specs : List (List Nat × List Nat)) : List Nat :=
  (specs.map Prod.fst).flatten

/-- All `post` events in reverse chain order (the LIFO unwind). -/
def postsOf (specs : List (List Nat × List Nat)) : List Nat :=
  (specs.reverse.map Prod.snd).flatten

/-- A middleware that logs `pre`, registers `g` on the engine
(`engine.use(g)`) while the dispatch is in flight, awaits `next()`, and
logs `post`. -/
def regHandler (g : HP) (pre post : List Nat) : HP :=
  emitSeq pre (.useReg g (.callNext (emitSeq post .ret)))

/-- What happens to the result of `await next()` inside a `goodHandler`:
on resolution the handler appends its `posts` ("after" logic), a rejection
passes through untouched. -/
def unwind (posts : List Nat) :
    EngSt × Except MwError Unit → EngSt × Except MwError Unit
  | (st, .ok _) => ({ st with trace := st.trace ++ posts }, .ok ())
  | (st, .error e) => (st, .error e)

theorem emitSeq_run (next : EngSt → EngSt × Except MwError Unit) (es : List Nat)
    (k : HP) (st : EngSt) :
    runHandler next (emitSeq es k) st
      = runHandler next k { st with trace := st.trace ++ es } := by
  induction es generalizing st with
  | nil => simp [emitSeq]
  | cons e es ih =>
      simp [emitSeq, runHandler, ih, List.append_assoc]

theorem dispatchStep_guard (fin : Option FinalHandler) (rest : List (Option HP))
    (i : Nat) (st : EngSt) (h : (i : Int) ≤ st.currentIndex) :
    dispatchStep fin rest i st = (st, .error .nextCalledMultipleTimes) := by
  rw [dispatchStep.eq_def]
  simp [h]

theorem dispatchStep_cur (fin : Option FinalHandler) (rest : List (Option HP))
    (i : Nat) (ms : List HP) (c1 c2 : Int) (tr : List Nat)
    (h1 : c1 < (i : Int)) (h2 : c2 < (i : Int)) :
    dispatchStep fin rest i ⟨ms, c1, tr⟩ = dispatchStep fin rest i ⟨ms, c2, tr⟩ := by
  rw [dispatchStep.eq_def, dispatchStep.eq_def]
  simp [not_le.mpr h1, not_le.mpr h2]

theorem dispatchStep_nil (fin : Option FinalHandler) (i : Nat) (ms : List HP)
    (c : Int) (tr : List Nat) (h : c < (i : Int)) :
    dispatchStep fin [] i ⟨ms, c, tr⟩ = finApply fin ⟨ms, (i : Int), tr⟩ := by
  rw [dispatchStep.eq_def]
  simp [not_le.mpr h]

theorem dispatchStep_hole (fin : Option FinalHandler) (rest : List (Option HP))
    (i : Nat) (ms : List HP) (c : Int) (tr : List Nat) (h : c < (i : Int)) :
    dispatchStep fin (none :: rest) i ⟨ms, c, tr⟩ = (⟨ms, (i : Int), tr⟩, .ok ()) := by
  rw [dispatchStep.eq_def]
  simp [not_le.mpr h]

theorem unwind_unwind (a b : List Nat) (x : EngSt × Except MwError Unit) :
    unwind b (unwind a x) = unwind (a ++ b) x := by
  obtain ⟨st, r⟩ := x
  cases r <;> simp [unwind, List.append_assoc]

theorem runHandler_callNext_emitSeq (next : EngSt → EngSt × Except MwError Unit)
    (q : List Nat) (st : EngSt) :
    runHandler next (.callNext (emitSeq q .ret)) st = unwind q (next st) := by
  cases h : next st with
  | mk st' r =>
      cases r <;> simp [runHandler, h, unwind, emitSeq_run]

theorem goodChain_nil : goodChain [] = [] := rfl

theorem goodChain_cons (p q : List Nat) (specs : List (List Nat × List Nat)) :
    goodChain ((p, q) :: specs) = some (goodHandler p q) :: goodChain specs := rfl

theorem presOf_nil : presOf [] = [] := rfl

theorem presOf_cons (p q : List Nat) (specs : List (List Nat × List Nat)) :
    presOf ((p, q) :: specs) = p ++ presOf specs := by
  simp [presOf]

theorem postsOf_nil : postsOf [] = [] := rfl

theorem postsOf_cons (p q : List Nat) (specs : List (List Nat × List Nat)) :
    postsOf ((p, q) :: specs) = postsOf specs ++ q := by
  simp [postsOf]

theorem dispatchStep_stop (fin : Option FinalHandler) (rest : List (Option HP))
    (i : Nat) (ms : List HP) (c : Int) (tr evs : List Nat) (h : c < (i : Int)) :
    dispatchStep fin (some (emitSeq evs .ret) :: rest) i ⟨ms, c, tr⟩
      = (⟨ms, (i : Int), tr ++ evs⟩, .ok ()) := by
  rw [dispatchStep.eq_def]
  simp [not_le.mpr h, emitSeq_run, runHandler]

theorem dispatchStep_throw (fin : Option FinalHandler) (rest : List (Option HP))
    (i : Nat) (ms : List HP) (c : Int) (tr evs : List Nat) (e : Nat) (h : c < (i : Int)) :
    dispatchStep fin (some (emitSeq evs (.throwE e)) :: rest) i ⟨ms, c, tr⟩
      = (⟨ms, (i : Int), tr ++ evs⟩, .error (.userError e)) := by
  rw [dispatchStep.eq_def]
  simp [not_le.mpr h, emitSeq_run, runHandler]

theorem dispatchStep_good (fin : Option FinalHandler) (rest : List (Option HP))
    (i : Nat) (ms : List HP) (c : Int) (tr pre post : List Nat) (h : c < (i : Int)) :
    dispatchStep fin (some (goodHandler pre post) :: rest) i ⟨ms, c, tr⟩
      = unwind post (dispatchStep fin rest (i + 1) ⟨ms, (i : Int), tr ++ pre⟩) := by
  rw [dispatchStep.eq_def]
  simp [not_le.mpr h, goodHandler, emitSeq_run, runHandler_callNext_emitSeq]

theorem dispatchStep_reg (fin : Option FinalHandler) (rest : List (Option HP))
    (i : Nat) (ms : List HP) (c : Int) (tr : List Nat) (g : HP) (pre post : List Nat)
    (h : c < (i : Int)) :
    dispatchStep fin (some (regHandler g pre post) :: rest) i ⟨ms, c, tr⟩
      = unwind post (dispatchStep fin rest (i + 1) ⟨ms ++ [g], (i : Int), tr ++ pre⟩) := by
  rw [dispatchStep.eq_def]
  simp [not_le.mpr h, regHandler, emitSeq_run, runHandler, runHandler_callNext_emitSeq]
  cases hx : dispatchStep fin rest (i + 1) ⟨ms ++ [g], (i : Int), tr ++ pre⟩ with
  | mk st' r => cases r <;> simp [unwind]

theorem dispatchStep_goodChain (fin : Option FinalHandler)
    (specs : List (List Nat × List Nat)) (rest : List (Option HP)) (i : Nat)
    (ms : List HP) (c : Int) (tr : List Nat) (h : c < (i : Int)) :
    dispatchStep fin (goodChain specs ++ rest) i ⟨ms, c, tr⟩
      = unwind (postsOf specs)
          (dispatchStep fin rest (i + specs.length)
            ⟨ms, (i : Int) + specs.length - 1, tr ++ presOf specs⟩) := by
  induction specs generalizing i c tr with
  | nil =>
      simp only [goodChain_nil, List.nil_append, presOf_nil, postsOf_nil,
        List.length_nil, Nat.add_zero, Nat.cast_zero, List.append_nil]
      rw [dispatchStep_cur fin rest i ms c ((i : Int) + 0 - 1) tr h (by omega)]
      cases hx : dispatchStep fin rest i ⟨ms, (i : Int) + 0 - 1, tr⟩ with
      | mk st' r => cases r <;> simp [unwind]
  | cons s specs ih =>
      obtain ⟨p, q⟩ := s
      rw [goodChain_cons, List.cons_append,
        dispatchStep_good fin (goodChain specs ++ rest) i ms c tr p q h,
        ih (i + 1) (i : Int) (tr ++ p) (by push_cast; omega),
        unwind_unwind, presOf_cons, postsOf_cons]
      have h1 : i + 1 + specs.length = i + (specs.length + 1) := by omega
      have h2 : ((i + 1 : Nat) : Int) + specs.length - 1
          = (i : Int) + ((p, q) :: specs).length - 1 := by
        push_cast
        simp
        omega
      rw [h1, h2]
      simp [List.append_assoc]

theorem goodHandlers_append (a b : List (List Nat × List Nat)) :
    goodHandlers (a ++ b) = goodHandlers a ++ goodHandlers b := by
  simp [goodHandlers]

theorem goodChain_map_some (specs : List (List Nat × List Nat)) :
    (goodHandlers specs).map some = goodChain specs := rfl

theorem presOf_append (a b : List (List Nat × List Nat)) :
    presOf (a ++ b) = presOf a ++ presOf b := by
  simp [presOf]

theorem postsOf_append (a b : List (List Nat × List Nat)) :
    postsOf (a ++ b) = postsOf b ++ postsOf a := by
  simp [postsOf]

theorem runComposed_goodChain (regs : List HP) (specs : List (List Nat × List Nat))
    (fin : Option FinalHandler) :
    runComposed regs (goodChain specs) fin
      = unwind (postsOf specs) (finApply fin ⟨regs, (specs.length : Int), presOf specs⟩) := by
  unfold runComposed
  rw [← List.append_nil (goodChain specs),
    dispatchStep_goodChain fin specs [] 0 regs (-1) [] (by omega)]
  simp only [Nat.cast_zero, zero_add, Nat.zero_add, List.nil_append]
  rw [dispatchStep_nil fin specs.length regs ((specs.length : Int) - 1) (presOf specs)
    (by omega)]

theorem dispatchStep_dbl (tev : List Nat) (specs2 : List (List Nat × List Nat))
    (i : Nat) (ms : List HP) (c : Int) (tr evs : List Nat) (h : c < (i : Int)) :
    dispatchStep (some ⟨tev, none⟩)
        (some (emitSeq evs (.callNext (.callNext .ret))) :: goodChain specs2) i ⟨ms, c, tr⟩
      = (⟨ms, (i : Int) + specs2.length + 1,
          tr ++ evs ++ presOf specs2 ++ tev ++ postsOf specs2⟩,
         .error .nextCalledMultipleTimes) := by
  have hnext1 : dispatchStep (some ⟨tev, none⟩) (goodChain specs2) (i + 1)
      ⟨ms, (i : Int), tr ++ evs⟩
      = (⟨ms, (i : Int) + specs2.length + 1,
          tr ++ evs ++ presOf specs2 ++ tev ++ postsOf specs2⟩, .ok ()) := by
    rw [← List.append_nil (goodChain specs2),
      dispatchStep_goodChain _ specs2 [] (i + 1) ms (i : Int) (tr ++ evs) (by push_cast; omega),
      dispatchStep_nil _ (i + 1 + specs2.length) ms _ _ (by push_cast; omega)]
    simp [finApply, unwind, List.append_assoc]
    try omega
  have hnext2 : ∀ (ms' : List HP) (tr' : List Nat),
      dispatchStep (some ⟨tev, none⟩) (goodChain specs2) (i + 1)
        ⟨ms', (i : Int) + specs2.length + 1, tr'⟩
      = (⟨ms', (i : Int) + specs2.length + 1, tr'⟩, .error .nextCalledMultipleTimes) :=
    fun ms' tr' => dispatchStep_guard _ _ _ _ (by push_cast; omega)
  rw [dispatchStep.eq_def]
  simp only [not_le.mpr h, if_false, ite_false, if_neg (not_le.mpr h)]
  rw [emitSeq_run]
  simp [runHandler, hnext1, hnext2]

/-- Claim C2: for every handler sequence (arbitrary length, arbitrary
"before" and "after" event blocks per position) and optional terminal
operation, one invocation of the composed chain runs all pre-continuation
blocks in strictly increasing position order (`presOf`), then the terminal
events exactly once — after the last handler's pre-block and before that
handler's post-block — and then all post-continuation blocks in strictly
decreasing position order (`postsOf`, the LIFO unwind), resolving
successfully; with no terminal, the same without the terminal events. -/
theorem composed_onion_order (regs : List HP) (specs : List (List Nat × List Nat))
    (tev : List Nat) :
    runComposed regs (goodChain specs) (some ⟨tev, none⟩)
      = (⟨regs, (specs.length : Int), presOf specs ++ tev ++ postsOf specs⟩, .ok ())
  ∧ runComposed regs (goodChain specs) none
      = (⟨regs, (specs.length : Int), presOf specs ++ postsOf specs⟩, .ok ()) := by
  constructor <;> rw [runComposed_goodChain] <;> simp [finApply, unwind, List.append_assoc]

/-- Claim C3: (1) in general, dispatching position `i` when the
highest-invoked counter already is at `i` or beyond (counter `i + d`)
rejects with the `next() called multiple times` error, whatever the chain
suffix and state; (2) concretely, a handler that awaits its continuation
twice, placed after any prefix of well-behaved handlers and before any
suffix of well-behaved handlers with a terminal, makes the whole composed
invocation reject with that error, while the downstream chain and the
terminal ran exactly once (their events appear once in the trace). -/
theorem continuation_reinvocation_rejected (fin : Option FinalHandler)
    (rest : List (Option HP)) (i d : Nat) (ms : List HP) (tr : List Nat)
    (regs : List HP) (specs1 specs2 : List (List Nat × List Nat)) (evs tev : List Nat) :
    dispatchStep fin rest i ⟨ms, (i : Int) + d, tr⟩
      = (⟨ms, (i : Int) + d, tr⟩, .error .nextCalledMultipleTimes)
  ∧ runComposed regs
      (goodChain specs1 ++ (some (emitSeq evs (.callNext (.callNext .ret))) :: goodChain specs2))
      (some ⟨tev, none⟩)
      = (⟨regs, (specs1.length : Int) + specs2.length + 1,
          presOf specs1 ++ evs ++ presOf specs2 ++ tev ++ postsOf specs2⟩,
         .error .nextCalledMultipleTimes) := by
  constructor
  · exact dispatchStep_guard _ _ _ _ (by push_cast; omega)
  · unfold runComposed
    rw [dispatchStep_goodChain _ specs1 _ 0 regs (-1) [] (by omega)]
    simp only [Nat.cast_zero, zero_add, Nat.zero_add, List.nil_append]
    rw [dispatchStep_dbl tev specs2 specs1.length regs ((specs1.length : Int) - 1)
      (presOf specs1) evs (by omega)]
    simp [unwind, List.append_assoc]
    try omega

/-- Claim C4: (1) a handler at any position that emits its events and then
throws makes the composed invocation reject with exactly that error
(identity preserved, no wrapping), no handler or terminal at a greater
position ever runs (their events are absent from the trace for an
arbitrary suffix and terminal), and the pending "after" blocks of earlier
handlers are skipped; (2) likewise when the terminal operation throws:
the error propagates unchanged and no post-continuation block runs. -/
theorem rejections_propagate_unmodified (regs : List HP)
    (specs : List (List Nat × List Nat)) (evs : List Nat) (e : Nat)
    (rest : List (Option HP)) (fin : Option FinalHandler) (regs2 : List HP)
    (specs2 : List (List Nat × List Nat)) (tev : List Nat) (e2 : Nat) :
    runComposed regs (goodChain specs ++ (some (emitSeq evs (.throwE e)) :: rest)) fin
      = (⟨regs, (specs.length : Int), presOf specs ++ evs⟩, .error (.userError e))
  ∧ runComposed regs2 (goodChain specs2) (some ⟨tev, some e2⟩)
      = (⟨regs2, (specs2.length : Int), presOf specs2 ++ tev⟩, .error (.userError e2)) := by
  constructor
  · unfold runComposed
    rw [dispatchStep_goodChain fin specs _ 0 regs (-1) [] (by omega)]
    simp only [Nat.cast_zero, zero_add, Nat.zero_add, List.nil_append]
    rw [dispatchStep_throw fin rest specs.length regs ((specs.length : Int) - 1)
      (presOf specs) evs e (by omega)]
    simp [unwind]
  · rw [runComposed_goodChain]
    simp [finApply, unwind]

/-- Claim C5: if the handler at some position emits its events and returns
without ever invoking its continuation, then no handler at a greater
position and no terminal operation runs (the suffix `rest` and the
terminal `fin` are arbitrary and contribute nothing to the trace), the
composed promise resolves, and no error is raised; earlier handlers
unwind normally. -/
theorem handler_not_calling_next_short_circuits (regs : List HP)
    (specs : List (List Nat × List Nat)) (evs : List Nat)
    (rest : List (Option HP)) (fin : Option FinalHandler) :
    runComposed regs (goodChain specs ++ (some (emitSeq evs .ret) :: rest)) fin
      = (⟨regs, (specs.length : Int), presOf specs ++ evs ++ postsOf specs⟩, .ok ()) := by
  unfold runComposed
  rw [dispatchStep_goodChain fin specs _ 0 regs (-1) [] (by omega)]
  simp only [Nat.cast_zero, zero_add, Nat.zero_add, List.nil_append]
  rw [dispatchStep_stop fin rest specs.length regs ((specs.length : Int) - 1)
    (presOf specs) evs (by omega)]
  simp [unwind, List.append_assoc]

/-- Claim C6: dispatching with registered handlers R and extra handlers E
executes exactly R ++ E — all registered handlers first in registration
order, then all extras in given order, as witnessed by the trace
`presOf R ++ presOf E ++ terminal ++ postsOf E ++ postsOf R` — and the
extras are not persisted: the registry after the dispatch is unchanged
(the `middlewares` component of the final state equals R), and the
effective chain of a dispatch without extras is just the registry. -/
theorem dispatch_runs_registered_then_extras
    (specsR specsE : List (List Nat × List Nat)) (tev : List Nat) :
    (MiddlewareEngine.mk (goodHandlers specsR)).dispatchWithExtras
        (some ⟨tev, none⟩) (goodHandlers specsE)
      = (⟨goodHandlers specsR, ((specsR.length + specsE.length : Nat) : Int),
          presOf specsR ++ presOf specsE ++ tev ++ postsOf specsE ++ postsOf specsR⟩,
         .ok ())
  ∧ (MiddlewareEngine.mk (goodHandlers specsR)).effectiveChain (some (goodHandlers specsE))
      = goodHandlers specsR ++ goodHandlers specsE
  ∧ (MiddlewareEngine.mk (goodHandlers specsR)).effectiveChain none
      = goodHandlers specsR := by
  refine ⟨?_, rfl, rfl⟩
  show runComposed (goodHandlers specsR) ((goodHandlers specsR ++ goodHandlers specsE).map some)
      (some ⟨tev, none⟩) = _
  rw [← goodHandlers_append, goodChain_map_some, runComposed_goodChain]
  simp [finApply, unwind, presOf_append, postsOf_append, List.append_assoc]

/-- Claim C1 (amended): when extra handlers are supplied, the effective
chain is the snapshot `registry ++ extras` merged at dispatch start: a
handler `g` registered via `use` while the dispatch is in flight (here by
the middleware at an arbitrary position `specs1.length`) is appended to
the registry — so it affects dispatches that begin afterwards — but never
executes within the in-flight dispatch (`g` is arbitrary and none of its
events reach the trace). -/
theorem dispatch_with_extras_is_snapshot (specs1 : List (List Nat × List Nat))
    (g : HP) (pre post : List Nat) (specs2 : List (List Nat × List Nat)) (tev : List Nat) :
    (MiddlewareEngine.mk (goodHandlers specs1 ++ [regHandler g pre post])).dispatchWithExtras
        (some ⟨tev, none⟩) (goodHandlers specs2)
      = (⟨(goodHandlers specs1 ++ [regHandler g pre post]) ++ [g],
          (specs1.length : Int) + specs2.length + 1,
          presOf specs1 ++ pre ++ presOf specs2 ++ tev ++ postsOf specs2 ++ post ++ postsOf specs1⟩,
         .ok ()) := by
  show runComposed _ (((goodHandlers specs1 ++ [regHandler g pre post]) ++ goodHandlers specs2).map some)
      (some ⟨tev, none⟩) = _
  have hchain : (((goodHandlers specs1 ++ [regHandler g pre post]) ++ goodHandlers specs2).map some)
      = goodChain specs1 ++ (some (regHandler g pre post) :: goodChain specs2) := by
    simp [goodChain, goodHandlers]
  rw [hchain]
  unfold runComposed
  rw [dispatchStep_goodChain _ specs1 _ 0 _ (-1) [] (by omega)]
  simp only [Nat.cast_zero, zero_add, Nat.zero_add, List.nil_append]
  rw [dispatchStep_reg _ (goodChain specs2) specs1.length _ ((specs1.length : Int) - 1)
    (presOf specs1) g pre post (by omega)]
  rw [← List.append_nil (goodChain specs2),
    dispatchStep_goodChain _ specs2 [] (specs1.length + 1) _ _ _ (by push_cast; omega),
    dispatchStep_nil _ (specs1.length + 1 + specs2.length) _ _ _ (by push_cast; omega)]
  simp [finApply, unwind, List.append_assoc]
  try omega

/-- Claim C1 (counterexample to the claim as stated): when no extra
handlers are supplied, `dispatch` hands the live registry array to the
composed chain, so a handler registered after the dispatch has begun does
execute within that same in-flight dispatch.  Concretely: the registry
holds one middleware that registers `emit 99` via `use` and then awaits
`next()`; the no-extras dispatch emits event `99` (trace `[99]`) — the
mid-flight registration ran in-flight — whereas running the snapshot of
the registry taken at dispatch start (second conjunct) emits nothing,
which is what the claim predicts for every dispatch. -/
theorem dispatch_without_extras_sees_midflight_registration :
    MiddlewareEngine.dispatchNoExtras
        ⟨[.useReg (.emit 99 .ret) (.callNext .ret)]⟩ none 10
      = some (⟨[.useReg (.emit 99 .ret) (.callNext .ret), .emit 99 .ret], 1, [99]⟩, .ok ())
  ∧ runComposed [.useReg (.emit 99 .ret) (.callNext .ret)]
      [some (.useReg (.emit 99 .ret) (.callNext .ret))] none
      = (⟨[.useReg (.emit 99 .ret) (.callNext .ret), .emit 99 .ret], 1, []⟩, .ok ()) := by
  constructor
  · rfl
  · rfl

/-- Claim C7: `composeMiddlewares` fails — synchronously, before any
handler could run, since the failure is decided by the validation alone —
with the array-shaped `TypeError` exactly when its argument is not an
array, with the function-shaped `TypeError` exactly when some element is
not callable, and otherwise returns the chain of the given functions;
`use` throws its `TypeError` exactly when its argument is not callable and
accepts exactly the callable arguments. -/
theorem entry_validation_invalid_argument (items : List JsArg)
    (eng : MiddlewareEngine) (m : JsArg) :
    composeMiddlewares .notAnArray = .error .middlewaresMustBeArray
  ∧ composeMiddlewares (.arr items)
      = (if JsArg.notAFunction ∈ items then .error .middlewareMustBeFunction
         else .ok (argFns items))
  ∧ ((eng.use m).2 = some .middlewareMustBeFunction ↔ m = .notAFunction)
  ∧ ((eng.use m).2 = none ↔ ∃ hh, m = .fn hh) := by
  refine ⟨rfl, ?_, ?_, ?_⟩
  · by_cases hmem : JsArg.notAFunction ∈ items
    · have hall : items.all isFn = false := by
        rw [List.all_eq_false]
        exact ⟨_, hmem, by simp [isFn]⟩
      simp [composeMiddlewares, hall, hmem]
    · have hall : items.all isFn = true := by
        rw [List.all_eq_true]
        intro x hx
        cases x with
        | fn hh => simp [isFn]
        | notAFunction => exact absurd hx hmem
      simp [composeMiddlewares, hall, hmem]
  · cases m <;> simp [MiddlewareEngine.use]
  · cases m <;> simp [MiddlewareEngine.use]

/-- Claim C8: a missing handler value (`undefined`) at the position being
dispatched is a silent no-op: the execution resolves at that point with no
error, no handler at a greater position and no terminal operation runs
(the suffix and terminal are arbitrary and contribute nothing to the
trace), and earlier handlers unwind normally. -/
theorem missing_handler_is_silent_noop (regs : List HP)
    (specs : List (List Nat × List Nat)) (rest : List (Option HP))
    (fin : Option FinalHandler) :
    runComposed regs (goodChain specs ++ (none :: rest)) fin
      = (⟨regs, (specs.length : Int), presOf specs ++ postsOf specs⟩, .ok ()) := by
  unfold runComposed
  rw [dispatchStep_goodChain fin specs _ 0 regs (-1) [] (by omega)]
  simp only [Nat.cast_zero, zero_add, Nat.zero_add, List.nil_append]
  rw [dispatchStep_hole fin rest specs.length regs ((specs.length : Int) - 1)
    (presOf specs) (by omega)]
  simp [unwind]

/-- Claim C9: `getMiddlewares` returns a defensive copy.  In a store whose
array 0 is the engine's registry, the reference it returns is a fresh
array with the registry's contents; overwriting that fresh array with
arbitrary contents leaves the registry array unchanged, so a subsequent
dispatch built from the registry behaves exactly as before the mutation. -/
theorem getMiddlewares_returns_defensive_copy (regs : List HP)
    (tail : List (List HP)) (l : List HP) (fin : Option FinalHandler) (ex : List HP) :
    (getMiddlewaresRef ⟨regs :: tail⟩ 0).2.read (getMiddlewaresRef ⟨regs :: tail⟩ 0).1 = regs
  ∧ ((getMiddlewaresRef ⟨regs :: tail⟩ 0).2.writeArr
        (getMiddlewaresRef ⟨regs :: tail⟩ 0).1 l).read 0 = regs
  ∧ (MiddlewareEngine.mk (((getMiddlewaresRef ⟨regs :: tail⟩ 0).2.writeArr
        (getMiddlewaresRef ⟨regs :: tail⟩ 0).1 l).read 0)).dispatchWithExtras fin ex
      = (MiddlewareEngine.mk regs).dispatchWithExtras fin ex := by
  have h1 : (getMiddlewaresRef ⟨regs :: tail⟩ 0).2.read
      (getMiddlewaresRef ⟨regs :: tail⟩ 0).1 = regs := by
    simp [getMiddlewaresRef, ArrayStore.read, List.getD]
  have h2 : ((getMiddlewaresRef ⟨regs :: tail⟩ 0).2.writeArr
      (getMiddlewaresRef ⟨regs :: tail⟩ 0).1 l).read 0 = regs := by
    simp [getMiddlewaresRef, ArrayStore.read, ArrayStore.writeArr, List.getD]
  exact ⟨h1, h2, by rw [h2]⟩

/-- Claim C10: `use` with a non-callable argument throws before touching
the registry: the engine state after the failed call equals the state
before it, so `getMiddlewares` and every subsequent dispatch (with or
without extras) behave as if the failed call never happened. -/
theorem use_failure_leaves_registry_unchanged (eng : MiddlewareEngine)
    (fin : Option FinalHandler) (ex : List HP) (fuel : Nat) :
    (eng.use .notAFunction).2 = some .middlewareMustBeFunction
  ∧ (eng.use .notAFunction).1 = eng
  ∧ ((eng.use .notAFunction).1).middlewares = eng.middlewares
  ∧ ((eng.use .notAFunction).1).dispatchWithExtras fin ex = eng.dispatchWithExtras fin ex
  ∧ ((eng.use .notAFunction).1).dispatchNoExtras fin fuel = eng.dispatchNoExtras fin fuel := by
  simp [MiddlewareEngine.use]

end RequestMiddleware
